import Mathlib

/-!
Verification of the QuickPicks live-betting session engine
(`src/backend/models.py`, `src/backend/main.py`, `src/backend/game_data.py`).

Python dictionaries (`Dict[str, ...]`) are embedded as association lists
with unique keys, preserving insertion order (CPython dict semantics):
assignment to an existing key updates the value in place, assignment to a
fresh key appends, `del` removes the entry.  Machine integers are `Int`
(Python ints are unbounded); Python floor division `//` is `Int.fdiv`.
Wall-clock instants are `Int` timestamps.
-/

namespace QuickPicks

/-! ### Association lists modelling Python `dict` -/

/-- `d[k]` lookup / `k in d` membership for a Python dict embedded as an
association list. -/
def alookup {α : Type} : List (String × α) → String → Option α
  | [], _ => none
  | (k', v) :: t, k => if k' = k then some v else alookup t k

/-- `d[k] = v` on a Python dict: update in place when the key exists
(keeping its position, as CPython does), append otherwise. -/
def ainsert {α : Type} : List (String × α) → String → α → List (String × α)
  | [], k, v => [(k, v)]
  | (k', v') :: t, k, v =>
    if k' = k then (k', v) :: t else (k', v') :: ainsert t k v

/-- `del d[k]` on a Python dict. -/
def aerase {α : Type} : List (String × α) → String → List (String × α)
  | [], _ => []
  | (k', v') :: t, k => if k' = k then t else (k', v') :: aerase t k

/-- The keys of an embedded dict. -/
def akeys {α : Type} (l : List (String × α)) : List String := l.map Prod.fst

/-! ### Data model (`src/backend/models.py`) -/

/-- `EventStatus` (models.py). -/
inductive EventStatus where
  | pending
  | active
  | completed
deriving DecidableEq, Repr

/-- `GameStatus` (models.py). -/
inductive GameStatus where
  | waiting
  | inProgress
  | completed
deriving DecidableEq, Repr

/-- `Player` (models.py).  `joined_at` is irrelevant to every property
proved here and is omitted. -/
structure Player where
  name : String
  score : Int := 200
  currentBet : Option Int := none
  wageredAmount : Int := 0
deriving DecidableEq, Repr

/-- `AnswerChoice` (models.py). -/
structure AnswerChoice where
  id : Int
  text : String
deriving DecidableEq, Repr

/-- `Event` (models.py).  The `probability` field is an informational
float never read by the engine and is omitted. -/
structure Event where
  id : String
  question : String
  answerChoices : List AnswerChoice
  correctAnswerId : Int
  pointsReward : Int
  timerSeconds : Int
  resolutionDelaySeconds : Int
  status : EventStatus := .pending
  createdAt : Option Int := none
  expiresAt : Option Int := none
deriving DecidableEq, Repr

/-- `PlayerBet` (models.py); `submitted_at` is never read and is omitted. -/
structure PlayerBet where
  playerName : String
  answerId : Int
deriving DecidableEq, Repr

/-- `Room` (models.py); `created_at` is never read and is omitted. -/
structure Room where
  id : String
  name : String
  gameName : String
  hostName : String
  players : List (String × Player) := []
  currentEvent : Option Event := none
  completedEvents : List Event := []
  gameStatus : GameStatus := .waiting
deriving DecidableEq, Repr

/-- `GameState` (models.py). -/
structure GameState where
  room : Room
  currentBets : List (String × PlayerBet) := []
  eventResults : List (String × List (String × Int)) := []
deriving DecidableEq, Repr

/-- `GameState.calculate_wager_amount` (models.py line 101): `200 // total_events`. -/
def calculateWagerAmount (totalEvents : Int) : Int := Int.fdiv 200 totalEvents

/-- First loop of `calculate_points_distribution` (models.py lines 112-119):
accumulate `total_wagered` and the list `correct_players` over the current
bets, skipping bettors absent from `room.players`. -/
def betScanStep (players : List (String × Player)) (correctAnswerId : Int)
    (acc : Int × List String) (b : String × PlayerBet) : Int × List String :=
  match alookup players b.1 with
  | some player =>
      let acc1 : Int × List String := (acc.1 + player.wageredAmount, acc.2)
      if b.2.answerId = correctAnswerId then (acc1.1, acc1.2 ++ [b.1]) else acc1
  | none => acc

/-- Second loop of the winners branch (models.py lines 129-131): bettors
not already in `results` get 0. -/
def zeroFillStep (res : List (String × Int)) (b : String × PlayerBet) :
    List (String × Int) :=
  if (alookup res b.1).isSome then res else res ++ [(b.1, 0)]

/-- Refund loop (models.py lines 134-137): every bettor present in
`room.players` gets their own wagered amount back. -/
def refundStep (players : List (String × Player)) (res : List (String × Int))
    (b : String × PlayerBet) : List (String × Int) :=
  match alookup players b.1 with
  | some player => res ++ [(b.1, player.wageredAmount)]
  | none => res

/-- `GameState.calculate_points_distribution` (models.py lines 105-139). -/
def calculatePointsDistribution (gs : GameState) (correctAnswerId : Int) :
    List (String × Int) :=
  let scan := gs.currentBets.foldl (betScanStep gs.room.players correctAnswerId) (0, [])
  let totalWagered := scan.1
  let correctPlayers := scan.2
  if correctPlayers ≠ [] ∧ totalWagered > 0 then
    let pointsPerWinner := Int.fdiv totalWagered correctPlayers.length
    let winners := correctPlayers.map (fun n => (n, pointsPerWinner))
    gs.currentBets.foldl zeroFillStep winners
  else
    gs.currentBets.foldl (refundStep gs.room.players) []

/-! ### Specification-side readings of the scoring data

`betWager` is a bettor's wagered amount, `totalWageredOf` the sum of the
wagered amounts of all current bettors, and `correctBettors` the bettors
whose chosen answer id equals the correct answer id — the notions the
specification's scoring laws are phrased in. -/

/-- The wagered amount of the bettor behind one current-bet entry. -/
def betWager (players : List (String × Player)) (b : String × PlayerBet) : Int :=
  ((alookup players b.1).map Player.wageredAmount).getD 0

/-- Sum of the wagered amounts of all current bettors. -/
def totalWageredOf (gs : GameState) : Int :=
  (gs.currentBets.map (betWager gs.room.players)).sum

/-- The (dict keys of the) current bettors who chose the correct answer. -/
def correctBettors (gs : GameState) (cid : Int) : List String :=
  (gs.currentBets.filter (fun b => b.2.answerId = cid)).map Prod.fst

/-! ### Prompt provider data (`src/backend/game_data.py`)

`DEMO_EVENTS` as value-level templates.  The status and timestamp fields
keep their model defaults (`pending`, `none`). -/

def demoEvents : List Event := [
  { id := "event_1",
    question := "Will the Lions score a touchdown on this drive?",
    answerChoices := [⟨1, "Yes"⟩, ⟨2, "No"⟩],
    correctAnswerId := 1, pointsReward := 33,
    timerSeconds := 30, resolutionDelaySeconds := 10 },
  { id := "event_2",
    question := "What will happen on the next play?",
    answerChoices := [⟨1, "Rushing play"⟩, ⟨2, "Passing play"⟩,
                      ⟨3, "Turnover"⟩, ⟨4, "Score"⟩],
    correctAnswerId := 2, pointsReward := 33,
    timerSeconds := 20, resolutionDelaySeconds := 8 },
  { id := "event_3",
    question := "Will Lamar Jackson throw for over 15 yards this play?",
    answerChoices := [⟨1, "Yes"⟩, ⟨2, "No"⟩],
    correctAnswerId := 2, pointsReward := 33,
    timerSeconds := 25, resolutionDelaySeconds := 12 },
  { id := "event_4",
    question := "Which team will score next?",
    answerChoices := [⟨1, "Lions"⟩, ⟨2, "Ravens"⟩,
                      ⟨3, "Neither (End of quarter)"⟩],
    correctAnswerId := 1, pointsReward := 33,
    timerSeconds := 35, resolutionDelaySeconds := 15 },
  { id := "event_5",
    question := "Will there be a penalty called on this play?",
    answerChoices := [⟨1, "Yes"⟩, ⟨2, "No"⟩],
    correctAnswerId := 2, pointsReward := 33,
    timerSeconds := 15, resolutionDelaySeconds := 5 },
  { id := "event_6",
    question := "Final prediction: Who will win the game?",
    answerChoices := [⟨1, "Lions"⟩, ⟨2, "Ravens"⟩, ⟨3, "Tie (OT)"⟩],
    correctAnswerId := 2, pointsReward := 33,
    timerSeconds := 45, resolutionDelaySeconds := 20 }]

/-- `get_events_for_game` (game_data.py lines 146-150), value-level reading:
the list of prompt templates for a game id. -/
def getEventsForGameTemplates (gameId : String) : List Event :=
  if gameId = "lions_ravens_demo" then demoEvents else []

/-- The event count the engine actually uses.  `resolve_event`,
`schedule_next_event` and the bet handler all call
`get_events_for_game("lions_ravens_demo")` with a hardcoded game id
(main.py lines 186, 200, 379), whatever game the room was created for. -/
def demoEventsLength : Nat := demoEvents.length

/-! ### Session state machine (`src/backend/main.py`)

One room is modelled; `timerAlive` is true while a timer task owned by the
room is alive (`room_timers`).  Each handler is the state mutation of the
corresponding block of `main.py`; broadcasts carry no state and are
reflected as flags where a claim needs them. -/

/-- Result of one inbound-message handler: the state afterwards, the
personal `error` message if one was sent, whether a bet confirmation was
sent, whether a room update was broadcast, and whether an uncaught Python
exception (the `KeyError` on line 383 for a name that is not a player)
escaped to the enclosing `except` block. -/
structure HandlerOutput where
  gs : GameState
  errorMsg : Option String
  confirmed : Bool
  broadcasted : Bool
  raised : Bool
deriving DecidableEq, Repr

/-- Python truthiness of `expires_at and current_time <= expires_at`
(main.py lines 374-375): `None` is falsy. -/
def withinWindow (expiresAt : Option Int) (now : Int) : Bool :=
  match expiresAt with
  | some e => now ≤ e
  | none => false

/-- The body of the `PLACE_BET` branch of the websocket handler (main.py
lines 367-434).  `answerId = none` models a message without an
`answer_id` field; Python also treats an `answer_id` of `0` as falsy.
This is the branch the loop was written to dispatch to; at runtime the
dispatch itself (line 367) and the confirmation send of the accepted path
(line 395) evaluate `MessageType` members that do not exist, so the
replies modelled here are never delivered — `handleClientMessage` below
is the faithful model of a loop iteration, including that
`AttributeError` path.  The branch body is still the right abstraction
for invariant claims: its state effects are a superset of what the
program can perform. -/
def handlePlaceBet (now : Int) (gs : GameState) (playerName : String)
    (answerId : Option Int) : HandlerOutput :=
  match answerId, gs.room.currentEvent with
  | some aid, some ev =>
    if aid ≠ 0 then
      if ev.status = .active then
        if withinWindow ev.expiresAt now then
          let wagerAmount := calculateWagerAmount (demoEventsLength : Int)
          match alookup gs.room.players playerName with
          | none =>
              { gs := gs, errorMsg := none, confirmed := false,
                broadcasted := false, raised := true }
          | some player =>
              if wagerAmount ≤ player.score then
                let bet : PlayerBet := { playerName := playerName, answerId := aid }
                let player' : Player :=
                  { player with currentBet := some aid,
                                wageredAmount := wagerAmount,
                                score := player.score - wagerAmount }
                { gs := { gs with
                    currentBets := ainsert gs.currentBets playerName bet,
                    room := { gs.room with
                      players := ainsert gs.room.players playerName player' } },
                  errorMsg := none, confirmed := true,
                  broadcasted := true, raised := false }
              else
                { gs := gs,
                  errorMsg := some ("Not enough points to wager " ++
                    toString wagerAmount ++ " points"),
                  confirmed := false, broadcasted := false, raised := false }
        else
          { gs := gs, errorMsg := some "Betting window has closed",
            confirmed := false, broadcasted := false, raised := false }
      else
        { gs := gs, errorMsg := some "No active betting event",
          confirmed := false, broadcasted := false, raised := false }
    else
      { gs := gs, errorMsg := none, confirmed := false,
        broadcasted := false, raised := false }
  | _, _ =>
      { gs := gs, errorMsg := none, confirmed := false,
        broadcasted := false, raised := false }

/-- Python `str.strip()` with no argument: remove leading and trailing
whitespace. -/
def pyStrip (s : String) : String :=
  ⟨((s.data.dropWhile Char.isWhitespace).reverse.dropWhile Char.isWhitespace).reverse⟩

/-- The join block of the websocket handler (main.py lines 315-331): strip
the name; add a fresh `Player` only when the name is not the host name and
not already present. -/
def joinRoom (gs : GameState) (rawName : String) : GameState :=
  let playerName := pyStrip rawName
  let isHost := playerName = gs.room.hostName
  if ¬isHost ∧ (alookup gs.room.players playerName).isNone then
    { gs with room := { gs.room with
        players := ainsert gs.room.players playerName { name := playerName } } }
  else gs

/-- Full per-room state: the game state plus whether a timer task owned by
the room is alive. -/
structure SysState where
  gs : GameState
  timerAlive : Bool
deriving DecidableEq, Repr

/-- `schedule_next_event` (main.py lines 194-225): activate the next demo
template (status, activation and expiry timestamps) and start a fresh
timer, replacing any prior one. -/
def scheduleNextEvent (now : Int) (s : SysState) : SysState :=
  let eventsForGame := getEventsForGameTemplates "lions_ravens_demo"
  let nextEventIndex := s.gs.room.completedEvents.length
  match eventsForGame.get? nextEventIndex with
  | some ev0 =>
      let nextEvent : Event :=
        { ev0 with status := .active, createdAt := some now,
                   expiresAt := some (now + ev0.timerSeconds) }
      { gs := { s.gs with
          room := { s.gs.room with currentEvent := some nextEvent } },
        timerAlive := true }
  | none => s

/-- `end_game` (main.py lines 227-248): mark the room Completed, broadcast
the summary, cancel and delete the timer for the room. -/
def endGame (s : SysState) : SysState :=
  { gs := { s.gs with
      room := { s.gs.room with gameStatus := .completed } },
    timerAlive := false }

/-- One iteration of the results-application loop of `resolve_event`
(main.py lines 148-154): `score += delta; wagered_amount = 0`, skipping a
name that is not a player. -/
def applyResultStep (ps : List (String × Player)) (nd : String × Int) :
    List (String × Player) :=
  match alookup ps nd.1 with
  | some p => ainsert ps nd.1 { p with score := p.score + nd.2, wageredAmount := 0 }
  | none => ps

/-- The per-player results-application loop of `resolve_event` (main.py
lines 148-154), iterating over the results map. -/
def applyResults (players : List (String × Player)) (results : List (String × Int)) :
    List (String × Player) :=
  results.foldl applyResultStep players

/-- `resolve_event` (main.py lines 130-192): validate the prompt identity,
mark it Completed, score and apply deltas, store results, archive the
prompt, clear bets and selections, then either end the game (when the
completed count reaches the hardcoded demo event count) or schedule the
next prompt after the inter-prompt pause. -/
def resolveEventStep (now : Int) (s : SysState) (eventId : String) : SysState :=
  match s.gs.room.currentEvent with
  | none => s
  | some ev =>
    if ev.id ≠ eventId then s
    else
      let ev' := { ev with status := EventStatus.completed }
      let results := calculatePointsDistribution s.gs ev.correctAnswerId
      let players' := applyResults s.gs.room.players results
      let players'' := players'.map (fun np => (np.1, { np.2 with currentBet := none }))
      let gs' : GameState :=
        { room := { s.gs.room with
            players := players'',
            currentEvent := none,
            completedEvents := s.gs.room.completedEvents ++ [ev'] },
          currentBets := [],
          eventResults := ainsert s.gs.eventResults eventId results }
      if demoEventsLength ≤ gs'.room.completedEvents.length then
        endGame { gs := gs', timerAlive := s.timerAlive }
      else
        scheduleNextEvent now { gs := gs', timerAlive := s.timerAlive }

/-- The body of the `START_GAME` branch of the websocket handler (main.py
lines 436-449): only a host in a Waiting room acts; with zero non-host
players an error is sent; otherwise the room moves to InProgress and the
first prompt is scheduled.  The second component is the personal error
message, if any.  At runtime this branch is unreachable from the loop
(the line-367 attribute access raises first; see `handleClientMessage`);
the admin route (main.py lines 477-490) performs the same
Waiting-to-InProgress switch and scheduling without the host and
zero-player checks, a state effect this body also covers. -/
def handleStartGame (now : Int) (s : SysState) (playerName : String) :
    SysState × Option String :=
  if playerName = s.gs.room.hostName then
    if s.gs.room.gameStatus = .waiting then
      let nonHostPlayers :=
        (akeys s.gs.room.players).filter (fun n => n ≠ s.gs.room.hostName)
      if nonHostPlayers.length = 0 then
        (s, some "Cannot start game: No players have joined yet")
      else
        (scheduleNextEvent now
          { s with gs := { s.gs with
              room := { s.gs.room with gameStatus := .inProgress } } },
         none)
    else (s, none)
  else (s, none)

/-- The `WebSocketDisconnect` handler (main.py lines 451-467): remove the
player record unless the name is the host name; current bets are not
touched. -/
def handleDisconnect (s : SysState) (playerName : String) : SysState :=
  if playerName ≠ s.gs.room.hostName ∧ (alookup s.gs.room.players playerName).isSome then
    { s with gs := { s.gs with
        room := { s.gs.room with
          players := aerase s.gs.room.players playerName } } }
  else s

/-- One externally triggered transition of a room: a join, an inbound bet
or start message, a timer resolution wake, or a disconnect.  The resolve
action carries the event id the timer was started for; a stale id makes it
a no-op, as in the source. -/
inductive Action where
  | join (rawName : String)
  | placeBet (now : Int) (playerName : String) (answerId : Option Int)
  | startGame (now : Int) (playerName : String)
  | resolve (now : Int) (eventId : String)
  | disconnect (playerName : String)
deriving DecidableEq, Repr

/-- The transition function of the room state machine.  The action set
over-approximates the transitions the program can perform: `resolve` is
offered as a freely occurring wake with an arbitrary timer id (in the
source the timer task raises inside `close_betting` before
`resolve_event` can run — see `startEventTimerRun` — so these transitions
are a superset of reality), `startGame` also covers the state effect of
the unguarded admin start route, and the bet action applies the branch
body whose dispatch is itself broken.  Invariant theorems quantified over
`Reachable` therefore cover the program; no liveness conclusion is drawn
from this relation. -/
def stepAction (s : SysState) (a : Action) : SysState :=
  match a with
  | .join n => { s with gs := joinRoom s.gs n }
  | .placeBet now n aid => { s with gs := (handlePlaceBet now s.gs n aid).gs }
  | .startGame now n => (handleStartGame now s n).1
  | .resolve now eid => resolveEventStep now s eid
  | .disconnect n => handleDisconnect s n

/-- `create_room` (main.py lines 262-278): a fresh Waiting room with no
players, no prompt, no timer. -/
def initRoom (roomId vname gameName hostName : String) : SysState :=
  { gs := { room := { id := roomId, name := vname,
                      gameName := gameName, hostName := hostName } },
    timerAlive := false }

/-- Run a sequence of transitions. -/
def runTrace (s : SysState) (acts : List Action) : SysState :=
  acts.foldl stepAction s

/-- The states a room can reach from creation. -/
def Reachable (roomId vname gameName hostName : String) (s : SysState) : Prop :=
  ∃ acts : List Action, runTrace (initRoom roomId vname gameName hostName) acts = s

/-! ### The `MessageType` enum (`src/backend/models.py` lines 143-157)

Member names with their string values, and Python attribute access on the
enum class, which raises `AttributeError` for a missing member.  `main.py`
references `MessageType.BETTING_CLOSED`, `MessageType.PLACE_BET` and
`MessageType.BET_PLACED`, none of which are members. -/

def messageTypeMembers : List (String × String) := [
  ("JOIN_ROOM", "join_room"),
  ("SUBMIT_ANSWER", "submit_answer"),
  ("START_GAME", "start_game"),
  ("ROOM_UPDATE", "room_update"),
  ("NEW_EVENT", "new_event"),
  ("ANSWERS_CLOSED", "answers_closed"),
  ("EVENT_RESOLVED", "event_resolved"),
  ("EVENT_RESULTS", "event_results"),
  ("GAME_ENDED", "game_ended"),
  ("ANSWER_SUBMITTED", "answer_submitted"),
  ("ERROR", "error")]

/-- `MessageType.<attr>` in Python: the member value when the member
exists; `none` models the `AttributeError` raised for a missing member. -/
def messageTypeAttr (attr : String) : Option String :=
  alookup messageTypeMembers attr

/-- The broadcast payload `close_betting` tries to build (main.py lines
118-126); only the fields claims refer to are carried. -/
structure BettingClosedMsg where
  msgType : String
  eventId : String
  resolutionInSeconds : Int
deriving DecidableEq, Repr

/-- Outcome of one `close_betting` wake: a raised Python exception, a
silent no-op (stale timer or missing room), or a broadcast message. -/
inductive CloseBettingOutcome where
  | raised (msg : String)
  | noop
  | broadcast (m : BettingClosedMsg)
deriving DecidableEq, Repr

/-- `close_betting` (main.py lines 106-128): validate room and prompt
identity, then build and broadcast the betting-closed message.  Building
the message evaluates `MessageType.BETTING_CLOSED` (line 119), which
raises when the member is missing.  The room state is never mutated. -/
def closeBetting (s : SysState) (eventId : String) : CloseBettingOutcome :=
  match s.gs.room.currentEvent with
  | none => CloseBettingOutcome.noop
  | some ev =>
    if ev.id ≠ eventId then CloseBettingOutcome.noop
    else
      match messageTypeAttr "BETTING_CLOSED" with
      | none => CloseBettingOutcome.raised "AttributeError: BETTING_CLOSED"
      | some ty =>
          CloseBettingOutcome.broadcast
            { msgType := ty, eventId := eventId,
              resolutionInSeconds := ev.resolutionDelaySeconds }

/-! ### Heap-level provider model (for the immutability claim)

`get_events_for_game` returns `DEMO_EVENTS.copy()` — a shallow copy: a new
list holding references to the same module-level `Event` objects.
References are modelled as indices into the provider heap, and
`schedule_next_event` line 205-207 mutates the referenced object in
place. -/

structure ProviderState where
  demoEventObjects : List Event
deriving DecidableEq, Repr

/-- The provider heap at module load: the six pristine templates. -/
def initProvider : ProviderState := { demoEventObjects := demoEvents }

/-- `get_events_for_game` at reference level: the (shallow-copied) list of
references into the provider heap. -/
def getEventsForGameRefs (p : ProviderState) (gameId : String) : List Nat :=
  if gameId = "lions_ravens_demo" then List.range p.demoEventObjects.length else []

/-- Dereference a list of event references against the provider heap. -/
def derefEvents (p : ProviderState) (refs : List Nat) : List (Option Event) :=
  refs.map (fun i => p.demoEventObjects.get? i)

/-- The heap effect of `schedule_next_event` (main.py lines 200-207) for a
room whose completed count is `completedCount`: fetch the reference list,
take the next reference, and mutate the shared object behind it in place
(status Active, activation and expiry timestamps). -/
def scheduleNextEventHeap (p : ProviderState) (completedCount : Nat) (now : Int) :
    ProviderState :=
  match (getEventsForGameRefs p "lions_ravens_demo").get? completedCount with
  | none => p
  | some r =>
      match p.demoEventObjects.get? r with
      | none => p
      | some ev0 =>
          { demoEventObjects := p.demoEventObjects.set r
              { ev0 with status := .active, createdAt := some now,
                         expiresAt := some (now + ev0.timerSeconds) } }

/-! ### The websocket message loop and the timer task, dispatch included

The faithful models of one loop iteration (main.py lines 362-449 with the
enclosing exception handling of lines 451-474) and of the timer task body
(lines 93-104): every Python attribute access on the `MessageType` enum
goes through `messageTypeAttr`, so the `AttributeError` raised for the
missing members is part of the semantics. -/

/-- The state effect of the generic `except Exception` block of the
websocket endpoint (main.py lines 468-474): the connection is dropped
and, when the sender is a non-host player, their record is deleted.  No
message is sent to anyone. -/
def exceptHandlerCleanup (s : SysState) (playerName : String) : SysState :=
  if playerName ≠ s.gs.room.hostName ∧
      (alookup s.gs.room.players playerName).isSome then
    { s with gs := { s.gs with room := { s.gs.room with
        players := aerase s.gs.room.players playerName } } }
  else s

/-- Outcome of one inbound message: the room state afterwards, the
`error` reply delivered to the sender (if any), and whether the session
loop is still alive. -/
structure LoopOutcome where
  s : SysState
  errorSent : Option String
  sessionAlive : Bool
deriving DecidableEq, Repr

/-- One iteration of the websocket message loop (main.py lines 362-449)
under the enclosing exception handling (lines 451-474).  Line 367
evaluates `MessageType.PLACE_BET` before any condition is tested; the
member does not exist, so every inbound message raises `AttributeError`,
which the generic handler turns into a silent teardown: no reply, the
non-host player record deleted, the session over.  The remaining branches
embed the dispatch the source was written to perform — reachable only if
the attribute accesses succeed — including the `MessageType.BET_PLACED`
access that line 395 performs after the accepted-bet mutations. -/
def handleClientMessage (now : Int) (s : SysState) (playerName : String)
    (msgType : String) (answerId : Option Int) : LoopOutcome :=
  match messageTypeAttr "PLACE_BET" with
  | none =>
      { s := exceptHandlerCleanup s playerName,
        errorSent := none, sessionAlive := false }
  | some placeBetValue =>
      if msgType = placeBetValue then
        let r := handlePlaceBet now s.gs playerName answerId
        if r.raised then
          { s := exceptHandlerCleanup { s with gs := r.gs } playerName,
            errorSent := none, sessionAlive := false }
        else if r.confirmed then
          match messageTypeAttr "BET_PLACED" with
          | none =>
              { s := exceptHandlerCleanup { s with gs := r.gs } playerName,
                errorSent := none, sessionAlive := false }
          | some _ =>
              { s := { s with gs := r.gs },
                errorSent := none, sessionAlive := true }
        else
          { s := { s with gs := r.gs },
            errorSent := r.errorMsg, sessionAlive := true }
      else
        match messageTypeAttr "START_GAME" with
        | none =>
            { s := exceptHandlerCleanup s playerName,
              errorSent := none, sessionAlive := false }
        | some startGameValue =>
            if msgType = startGameValue then
              let p := handleStartGame now s playerName
              { s := p.1, errorSent := p.2, sessionAlive := true }
            else
              { s := s, errorSent := none, sessionAlive := true }

/-- The timer task body `start_event_timer` (main.py lines 93-104) after
its first sleep: `close_betting`, the resolution-delay sleep, then
`resolve_event`.  Only `CancelledError` is caught, so an exception
escaping `close_betting` kills the task before `resolve_event` runs.
Returns the room state afterwards and whether the task died on an
exception. -/
def startEventTimerRun (tResolve : Int) (s : SysState) (eventId : String) :
    SysState × Bool :=
  match closeBetting s eventId with
  | CloseBettingOutcome.raised _ => (s, true)
  | _ => (resolveEventStep tResolve s eventId, false)

/-- The pair accumulated by the first scoring loop: total wagered and the
correct-player keys. -/
def betScanOf (gs : GameState) (cid : Int) : Int × List String :=
  gs.currentBets.foldl (betScanStep gs.room.players cid) (0, [])

/-! ### Concrete states used by witnesses and counterexamples -/

/-- A demo-game room: Alice and Bob joined, game started at time 0, both
bet on prompt 1 (Alice choice 1, Bob choice 2) inside the window. -/
def gsTwoBets : GameState :=
  (runTrace (initRoom "room1" "venue" "lions_ravens_demo" "hostess")
    [.join "alice", .join "bob", .startGame 0 "hostess",
     .placeBet 5 "alice" (some 1), .placeBet 5 "bob" (some 2)]).gs

/-- System state of a demo-game room with Alice joined and no current
prompt. -/
def sNoEvent : SysState :=
  runTrace (initRoom "room3" "venue" "lions_ravens_demo" "hostess")
    [.join "alice"]

/-- System state of a started demo-game room (prompt 1 active). -/
def sActive : SysState :=
  runTrace (initRoom "room4" "venue" "lions_ravens_demo" "hostess")
    [.join "alice", .startGame 0 "hostess"]

/-- The provider heap after one room activated its first prompt at
time 100. -/
def providerAfterActivation : ProviderState := scheduleNextEventHeap initProvider 0 100

/-- The first demo prompt as activated at time 0 (expiry at 30) — the
current prompt of `sActive`. -/
def activeEvent1 : Event :=
  { id := "event_1",
    question := "Will the Lions score a touchdown on this drive?",
    answerChoices := [⟨1, "Yes"⟩, ⟨2, "No"⟩],
    correctAnswerId := 1, pointsReward := 33,
    timerSeconds := 30, resolutionDelaySeconds := 10,
    status := .active, createdAt := some 0, expiresAt := some 30 }

/-! ### Association-list lemmas -/

theorem alookup_append_of_some {α : Type} {l₁ : List (String × α)} {k : String}
    {v : α} (l₂ : List (String × α)) (h : alookup l₁ k = some v) :
    alookup (l₁ ++ l₂) k = some v := by
  induction l₁ with
  | nil => simp [alookup] at h
  | cons hd t ih =>
      simp only [alookup, List.cons_append] at *
      by_cases hk : hd.1 = k
      · simpa [hk] using h
      · simp only [hk, if_false] at h ⊢
        exact ih h

theorem alookup_append_of_none {α : Type} {l₁ : List (String × α)} {k : String}
    (l₂ : List (String × α)) (h : alookup l₁ k = none) :
    alookup (l₁ ++ l₂) k = alookup l₂ k := by
  induction l₁ with
  | nil => simp
  | cons hd t ih =>
      simp only [alookup, List.cons_append] at *
      by_cases hk : hd.1 = k
      · simp [hk] at h
      · simp only [hk, if_false] at h ⊢
        exact ih h

theorem alookup_eq_none_of_not_mem {α : Type} {l : List (String × α)} {k : String}
    (h : k ∉ akeys l) : alookup l k = none := by
  induction l with
  | nil => rfl
  | cons hd t ih =>
      simp only [akeys, List.map_cons, List.mem_cons, not_or] at h
      have hne : hd.1 ≠ k := fun e => h.1 e.symm
      simp only [alookup, hne, if_false]
      exact ih h.2

theorem mem_akeys_of_alookup_some {α : Type} {l : List (String × α)} {k : String}
    {v : α} (h : alookup l k = some v) : k ∈ akeys l := by
  by_contra hk
  rw [alookup_eq_none_of_not_mem hk] at h
  cases h

/-- With unique keys, two entries of the list sharing a key are equal. -/
theorem entries_eq_of_nodup_keys {α : Type} {l : List (String × α)}
    (hnd : (akeys l).Nodup) {b b' : String × α} (hb : b ∈ l) (hb' : b' ∈ l)
    (hk : b.1 = b'.1) : b = b' := by
  induction l with
  | nil => cases hb
  | cons hd t ih =>
      simp only [akeys, List.map_cons, List.nodup_cons] at hnd
      rcases List.mem_cons.mp hb with hb1 | hb1
      · rcases List.mem_cons.mp hb' with hb2 | hb2
        · rw [hb1, hb2]
        · exfalso
          apply hnd.1
          rw [hb1] at hk
          rw [hk]
          exact List.mem_map_of_mem Prod.fst hb2
      · rcases List.mem_cons.mp hb' with hb2 | hb2
        · exfalso
          apply hnd.1
          rw [hb2] at hk
          rw [← hk]
          exact List.mem_map_of_mem Prod.fst hb1
        · exact ih hnd.2 hb1 hb2

/-- With unique keys, looking up an entry's key finds that entry's value. -/
theorem alookup_of_mem_nodup {α : Type} {l : List (String × α)}
    (hnd : (akeys l).Nodup) {b : String × α} (hb : b ∈ l) :
    alookup l b.1 = some b.2 := by
  induction l with
  | nil => cases hb
  | cons hd t ih =>
      simp only [akeys, List.map_cons, List.nodup_cons] at hnd
      rcases List.mem_cons.mp hb with hb1 | hb1
      · rw [hb1]
        simp [alookup]
      · have hne : hd.1 ≠ b.1 := by
          intro e
          apply hnd.1
          rw [e]
          exact List.mem_map_of_mem Prod.fst hb1
        simp only [alookup, hne, if_false]
        exact ih hnd.2 hb1

theorem alookup_ainsert {α : Type} (l : List (String × α)) (k : String) (v : α)
    (k' : String) :
    alookup (ainsert l k v) k' = if k = k' then some v else alookup l k' := by
  induction l with
  | nil =>
      simp only [ainsert, alookup]
  | cons hd t ih =>
      by_cases h0 : hd.1 = k
      · simp only [ainsert, h0, if_true, alookup]
        by_cases h1 : k = k'
        · simp [h1]
        · have : ¬hd.1 = k' := by rw [h0]; exact h1
          simp [h1, this, h0]
      · simp only [ainsert, h0, if_false, alookup, ih]
        by_cases h1 : hd.1 = k'
        · have : ¬k = k' := fun e => h0 (by rw [h1, e])
          simp [h1, this]
        · simp [h1]

theorem alookup_aerase_ne {α : Type} (l : List (String × α)) (k k' : String)
    (h : k ≠ k') : alookup (aerase l k) k' = alookup l k' := by
  induction l with
  | nil => rfl
  | cons hd t ih =>
      by_cases h0 : hd.1 = k
      · have h2 : ¬hd.1 = k' := by rw [h0]; exact h
        simp [aerase, alookup, h0, h2, h]
      · simp only [aerase, h0, if_false, alookup]
        by_cases h1 : hd.1 = k' <;> simp [h1, ih]

theorem mem_of_alookup_some {α : Type} {l : List (String × α)} {k : String}
    {v : α} (h : alookup l k = some v) : (k, v) ∈ l := by
  induction l with
  | nil => cases h
  | cons hd t ih =>
      simp only [alookup] at h
      by_cases h0 : hd.1 = k
      · rw [if_pos h0] at h
        injection h with h
        rw [List.mem_cons]
        left
        rw [← h0, ← h]
      · rw [if_neg h0] at h
        exact List.mem_cons_of_mem hd (ih h)

theorem mem_ainsert {α : Type} {l : List (String × α)} {k : String} {v : α}
    {np : String × α} (h : np ∈ ainsert l k v) : np = (k, v) ∨ np ∈ l := by
  induction l with
  | nil =>
      simp only [ainsert] at h
      rcases List.mem_singleton.mp h with h1
      exact Or.inl h1
  | cons hd t ih =>
      by_cases h0 : hd.1 = k
      · simp only [ainsert, h0, if_true, List.mem_cons] at h
        rcases h with h1 | h1
        · left
          rw [h1, ← h0]
        · right
          exact List.mem_cons_of_mem hd h1
      · simp only [ainsert, h0, if_false, List.mem_cons] at h
        rcases h with h1 | h1
        · right
          rw [h1]
          exact List.mem_cons_self hd t
        · rcases ih h1 with h2 | h2
          · exact Or.inl h2
          · exact Or.inr (List.mem_cons_of_mem hd h2)

theorem mem_aerase {α : Type} {l : List (String × α)} {k : String}
    {np : String × α} (h : np ∈ aerase l k) : np ∈ l := by
  induction l with
  | nil => cases h
  | cons hd t ih =>
      by_cases h0 : hd.1 = k
      · simp only [aerase, h0, if_true] at h
        exact List.mem_cons_of_mem hd h
      · simp only [aerase, h0, if_false, List.mem_cons] at h
        rcases h with h1 | h1
        · rw [h1]
          exact List.mem_cons_self hd t
        · exact List.mem_cons_of_mem hd (ih h1)

theorem akeys_ainsert_of_lookup_some {α : Type} {l : List (String × α)}
    {k : String} {p : α} (h : alookup l k = some p) (v : α) :
    akeys (ainsert l k v) = akeys l := by
  induction l with
  | nil => cases h
  | cons hd t ih =>
      simp only [alookup] at h
      by_cases h0 : hd.1 = k
      · simp [ainsert, h0, akeys]
      · rw [if_neg h0] at h
        simp only [ainsert, h0, if_false, akeys, List.map_cons]
        have h2 := ih h
        simp only [akeys] at h2
        rw [h2]

theorem akeys_ainsert_nodup {α : Type} {l : List (String × α)} (k : String)
    (v : α) (h : (akeys l).Nodup) : (akeys (ainsert l k v)).Nodup := by
  induction l with
  | nil => simp [ainsert, akeys]
  | cons hd t ih =>
      simp only [akeys, List.map_cons, List.nodup_cons] at h
      by_cases h0 : hd.1 = k
      · simp only [ainsert, h0, if_true, akeys, List.map_cons, List.nodup_cons]
        constructor
        · rw [← h0]
          exact h.1
        · exact h.2
      · simp only [ainsert, h0, if_false, akeys, List.map_cons, List.nodup_cons]
        constructor
        · intro hmem
          obtain ⟨np, hnp, he⟩ := List.mem_map.mp hmem
          rcases mem_ainsert hnp with h1 | h1
          · apply h0
            rw [h1] at he
            exact he.symm
          · apply h.1
            rw [← he]
            exact List.mem_map_of_mem Prod.fst h1
        · exact ih h.2

/-- Lookup over a key-preserving value map. -/
theorem alookup_map_val {α β : Type} (l : List (String × α))
    (f : String × α → β) (k : String) :
    alookup (l.map (fun x => (x.1, f x))) k =
      Option.map (fun v => f (k, v)) (alookup l k) := by
  induction l with
  | nil => rfl
  | cons hd t ih =>
      simp only [List.map_cons, alookup]
      by_cases h0 : hd.1 = k
      · subst h0
        simp
      · simp [h0, ih]

/-- Updating an existing entry shifts a map-sum by the difference at that
entry (unique keys). -/
theorem map_sum_ainsert {α : Type} (f : String × α → Int)
    (l : List (String × α)) (k : String) (v p : α)
    (hnd : (akeys l).Nodup) (h : alookup l k = some p) :
    ((ainsert l k v).map f).sum = (l.map f).sum + f (k, v) - f (k, p) := by
  induction l with
  | nil => cases h
  | cons hd t ih =>
      obtain ⟨k₀, v₀⟩ := hd
      simp only [akeys, List.map_cons, List.nodup_cons] at hnd
      simp only [alookup] at h
      by_cases h0 : k₀ = k
      · rw [if_pos h0] at h
        injection h with h
        subst h0
        subst h
        rw [show ainsert ((k₀, v₀) :: t) k₀ v = (k₀, v) :: t from by simp [ainsert]]
        simp only [List.map_cons, List.sum_cons]
        ring
      · rw [if_neg h0] at h
        rw [show ainsert ((k₀, v₀) :: t) k v = (k₀, v₀) :: ainsert t k v from by
          simp [ainsert, h0]]
        simp only [List.map_cons, List.sum_cons, ih hnd.2 h]
        ring

theorem nodup_append_single {α : Type} [DecidableEq α] {l : List α} {a : α}
    (h : l.Nodup) (ha : a ∉ l) : (l ++ [a]).Nodup := by
  simp [List.nodup_append, h, ha]

/-! ### Characterizing the scoring folds -/

/-- The first loop of `calculate_points_distribution`, when every bettor is
present in `room.players`, computes the sum of all bettors' wagers and the
keys of the correct bettors (in bet order). -/
theorem betScan_spec (players : List (String × Player)) (cid : Int)
    (bets : List (String × PlayerBet))
    (h : ∀ b ∈ bets, (alookup players b.1).isSome) (acc : Int × List String) :
    bets.foldl (betScanStep players cid) acc =
      (acc.1 + (bets.map (betWager players)).sum,
       acc.2 ++ (bets.filter (fun b => b.2.answerId = cid)).map Prod.fst) := by
  induction bets generalizing acc with
  | nil => simp
  | cons b t ih =>
      have hb := h b (List.mem_cons_self b t)
      obtain ⟨p, hp⟩ := Option.isSome_iff_exists.mp hb
      have ht : ∀ x ∈ t, (alookup players x.1).isSome :=
        fun x hx => h x (List.mem_cons_of_mem b hx)
      simp only [List.foldl_cons, List.map_cons, List.sum_cons, List.filter_cons]
      by_cases hc : b.2.answerId = cid
      · rw [show betScanStep players cid acc b
              = (acc.1 + p.wageredAmount, acc.2 ++ [b.1]) by
            simp [betScanStep, hp, hc]]
        rw [ih ht]
        simp [betWager, hp, hc, add_assoc, add_comm, add_left_comm]
      · rw [show betScanStep players cid acc b
              = (acc.1 + p.wageredAmount, acc.2) by
            simp [betScanStep, hp, hc]]
        rw [ih ht]
        simp [betWager, hp, hc, add_assoc, add_comm, add_left_comm]

/-- The zero-fill loop never changes an entry that is already present. -/
theorem zeroFill_lookup_some (bets : List (String × PlayerBet))
    (res₀ : List (String × Int)) (k : String) (v : Int)
    (h : alookup res₀ k = some v) :
    alookup (bets.foldl zeroFillStep res₀) k = some v := by
  induction bets generalizing res₀ with
  | nil => exact h
  | cons b t ih =>
      simp only [List.foldl_cons]
      apply ih
      unfold zeroFillStep
      split
      · exact h
      · exact alookup_append_of_some _ h

/-- The zero-fill loop gives 0 to every bettor key not already present. -/
theorem zeroFill_lookup_none (bets : List (String × PlayerBet))
    (res₀ : List (String × Int)) (k : String)
    (h : alookup res₀ k = none) (hmem : k ∈ akeys bets) :
    alookup (bets.foldl zeroFillStep res₀) k = some 0 := by
  induction bets generalizing res₀ with
  | nil => cases hmem
  | cons b t ih =>
      simp only [List.foldl_cons]
      by_cases hk : b.1 = k
      · have hnone : ¬(alookup res₀ b.1).isSome := by
          rw [hk, h]; simp
        rw [show zeroFillStep res₀ b = res₀ ++ [(b.1, 0)] by
          simp [zeroFillStep, hnone]]
        apply zeroFill_lookup_some
        rw [alookup_append_of_none _ h]
        simp [alookup, hk]
      · have hmem' : k ∈ akeys t := by
          simp only [akeys, List.map_cons, List.mem_cons] at hmem
          rcases hmem with e | h2
          · exact absurd e.symm hk
          · exact h2
        refine ih _ ?_ hmem'
        unfold zeroFillStep
        split
        · exact h
        · rw [alookup_append_of_none _ h]
          simp [alookup, hk]

/-- The zero-fill loop touches no key outside the bettor keys. -/
theorem zeroFill_lookup_not_mem (bets : List (String × PlayerBet))
    (res₀ : List (String × Int)) (k : String) (hmem : k ∉ akeys bets) :
    alookup (bets.foldl zeroFillStep res₀) k = alookup res₀ k := by
  induction bets generalizing res₀ with
  | nil => rfl
  | cons b t ih =>
      simp only [akeys, List.map_cons, List.mem_cons, not_or] at hmem
      have hbk : ¬b.1 = k := fun e => hmem.1 e.symm
      simp only [List.foldl_cons]
      rw [ih _ hmem.2]
      unfold zeroFillStep
      split
      · rfl
      · rcases hv : alookup res₀ k with _ | v
        · rw [alookup_append_of_none _ hv]
          simp [alookup, hbk]
        · exact alookup_append_of_some _ hv

/-- The zero-fill loop adds only zeros: the sum of the deltas is unchanged. -/
theorem zeroFill_sum (bets : List (String × PlayerBet))
    (res₀ : List (String × Int)) :
    ((bets.foldl zeroFillStep res₀).map Prod.snd).sum =
      (res₀.map Prod.snd).sum := by
  induction bets generalizing res₀ with
  | nil => rfl
  | cons b t ih =>
      simp only [List.foldl_cons]
      rw [ih]
      unfold zeroFillStep
      split
      · rfl
      · simp

/-- The refund loop appends, in bet order, one `(key, wager)` entry per
bettor present in `room.players`. -/
theorem refundFold_eq (players : List (String × Player))
    (bets : List (String × PlayerBet)) (res₀ : List (String × Int)) :
    bets.foldl (refundStep players) res₀ =
      res₀ ++ bets.filterMap
        (fun b => (alookup players b.1).map (fun p => (b.1, p.wageredAmount))) := by
  induction bets generalizing res₀ with
  | nil => simp
  | cons b t ih =>
      simp only [List.foldl_cons, List.filterMap_cons]
      rcases hp : alookup players b.1 with _ | p
      · rw [show refundStep players res₀ b = res₀ by simp [refundStep, hp]]
        rw [ih]
        simp [hp]
      · rw [show refundStep players res₀ b = res₀ ++ [(b.1, p.wageredAmount)] by
          simp [refundStep, hp]]
        rw [ih]
        simp [hp]

/-- Lookup in the winners list built from the correct-bettor keys. -/
theorem winners_lookup (correct : List String) (ppw : Int) (k : String) :
    alookup (correct.map (fun n => (n, ppw))) k =
      if k ∈ correct then some ppw else none := by
  induction correct with
  | nil => simp [alookup]
  | cons n t ih =>
      simp only [List.map_cons, alookup, List.mem_cons]
      by_cases hk : n = k
      · simp [hk]
      · simp only [hk, if_false, ih]
        have : ¬k = n := fun e => hk e.symm
        simp [this]

theorem sum_map_const_int {α : Type} (l : List α) (c : Int) :
    (l.map (fun _ => c)).sum = (l.length : Int) * c := by
  induction l with
  | nil => simp
  | cons x t ih =>
      simp only [List.map_cons, List.sum_cons, List.length_cons, ih]
      push_cast
      ring

/-- Lookup over a key-preserving map of the bet list, under unique keys. -/
theorem alookup_map_pair {β : Type} (bets : List (String × PlayerBet))
    (g : String × PlayerBet → β) (hnodup : (akeys bets).Nodup)
    {b : String × PlayerBet} (hb : b ∈ bets) :
    alookup (bets.map (fun x => (x.1, g x))) b.1 = some (g b) := by
  have h1 : akeys (bets.map (fun x => (x.1, g x))) = akeys bets := by
    unfold akeys
    rw [List.map_map]
    rfl
  have h2 : ((b.1, g b) : String × β) ∈ bets.map (fun x => (x.1, g x)) :=
    List.mem_map_of_mem _ hb
  exact alookup_of_mem_nodup (h1 ▸ hnodup) h2

/-- When every bettor is present, the refund loop's output is one entry per
bet carrying that bettor's own wager. -/
theorem refund_filterMap_eq (players : List (String × Player))
    (bets : List (String × PlayerBet))
    (hpresent : ∀ b ∈ bets, (alookup players b.1).isSome) :
    bets.filterMap
        (fun b => (alookup players b.1).map (fun p => (b.1, p.wageredAmount))) =
      bets.map (fun b => (b.1, betWager players b)) := by
  induction bets with
  | nil => rfl
  | cons b t ih =>
      obtain ⟨p, hp⟩ :=
        Option.isSome_iff_exists.mp (hpresent b (List.mem_cons_self b t))
      have ht : ∀ x ∈ t, (alookup players x.1).isSome :=
        fun x hx => hpresent x (List.mem_cons_of_mem b hx)
      simp [List.filterMap_cons, hp, betWager, ih ht]

/-- Branch form of `calculate_points_distribution` when every bettor is
present in `room.players`. -/
theorem calculatePointsDistribution_eq (gs : GameState) (cid : Int)
    (hpresent : ∀ b ∈ gs.currentBets, (alookup gs.room.players b.1).isSome) :
    calculatePointsDistribution gs cid =
      if correctBettors gs cid ≠ [] ∧ 0 < totalWageredOf gs then
        gs.currentBets.foldl zeroFillStep
          ((correctBettors gs cid).map
            (fun n => (n, Int.fdiv (totalWageredOf gs)
                            ((correctBettors gs cid).length : Int))))
      else gs.currentBets.foldl (refundStep gs.room.players) [] := by
  unfold calculatePointsDistribution
  rw [betScan_spec _ _ _ hpresent]
  simp only [zero_add, List.nil_append]
  rfl

theorem alookup_isSome_of_mem_akeys {α : Type} {l : List (String × α)}
    {k : String} (h : k ∈ akeys l) : (alookup l k).isSome := by
  induction l with
  | nil => cases h
  | cons hd t ih =>
      by_cases h0 : hd.1 = k
      · simp [alookup, h0]
      · simp only [alookup, h0, if_false]
        apply ih
        simp only [akeys, List.map_cons, List.mem_cons] at h
        rcases h with h1 | h1
        · exact absurd h1.symm h0
        · exact h1

/-- The correct-player keys collected by the first scoring loop form a
sublist of the bettor keys. -/
theorem betScan_correct_sublist (players : List (String × Player)) (cid : Int)
    (bets : List (String × PlayerBet)) (acc : Int × List String) :
    ∃ l, (bets.foldl (betScanStep players cid) acc).2 = acc.2 ++ l ∧
      l.Sublist (bets.map Prod.fst) := by
  induction bets generalizing acc with
  | nil => exact ⟨[], by simp⟩
  | cons b t ih =>
      simp only [List.foldl_cons, List.map_cons]
      rcases hl : alookup players b.1 with _ | p
      · rw [show betScanStep players cid acc b = acc by simp [betScanStep, hl]]
        obtain ⟨l, hl2, hsub⟩ := ih acc
        exact ⟨l, hl2, hsub.cons b.1⟩
      · by_cases hc : b.2.answerId = cid
        · rw [show betScanStep players cid acc b =
                (acc.1 + p.wageredAmount, acc.2 ++ [b.1]) by
              simp [betScanStep, hl, hc]]
          obtain ⟨l, hl2, hsub⟩ := ih (acc.1 + p.wageredAmount, acc.2 ++ [b.1])
          refine ⟨b.1 :: l, ?_, hsub.cons₂ b.1⟩
          rw [hl2]
          simp
        · rw [show betScanStep players cid acc b =
                (acc.1 + p.wageredAmount, acc.2) by
              simp [betScanStep, hl, hc]]
          obtain ⟨l, hl2, hsub⟩ := ih (acc.1 + p.wageredAmount, acc.2)
          exact ⟨l, hl2, hsub.cons b.1⟩

/-- The zero-fill loop preserves uniqueness of result keys. -/
theorem zeroFill_keys_nodup (bets : List (String × PlayerBet))
    (res₀ : List (String × Int)) (h : (akeys res₀).Nodup) :
    (akeys (bets.foldl zeroFillStep res₀)).Nodup := by
  induction bets generalizing res₀ with
  | nil => exact h
  | cons b t ih =>
      simp only [List.foldl_cons]
      apply ih
      unfold zeroFillStep
      split
      · exact h
      case isFalse hns =>
        have hnm : b.1 ∉ akeys res₀ := fun hm => hns (alookup_isSome_of_mem_akeys hm)
        have : akeys (res₀ ++ [(b.1, (0 : Int))]) = akeys res₀ ++ [b.1] := by
          simp [akeys]
        rw [this]
        exact nodup_append_single h hnm

/-- The keys produced by the refund loop form a sublist of the bettor keys. -/
theorem refund_keys_sublist (players : List (String × Player))
    (bets : List (String × PlayerBet)) :
    (akeys (bets.filterMap
      (fun b => (alookup players b.1).map (fun p => (b.1, p.wageredAmount))))).Sublist
      (akeys bets) := by
  induction bets with
  | nil => simp [akeys]
  | cons b t ih =>
      simp only [List.filterMap_cons]
      rcases hp : alookup players b.1 with _ | p
      · simp only [Option.map_none']
        have : akeys (b :: t) = b.1 :: akeys t := by simp [akeys]
        rw [this]
        exact ih.cons b.1
      · simp only [Option.map_some']
        have h1 : akeys ((b.1, p.wageredAmount) ::
            t.filterMap (fun b => (alookup players b.1).map
              (fun p => (b.1, p.wageredAmount)))) =
            b.1 :: akeys (t.filterMap (fun b => (alookup players b.1).map
              (fun p => (b.1, p.wageredAmount)))) := by
          simp [akeys]
        have h2 : akeys (b :: t) = b.1 :: akeys t := by simp [akeys]
        rw [h1, h2]
        exact ih.cons₂ b.1

/-- `calculate_points_distribution` as a single branch on the scan of the
current bets. -/
theorem cpd_as_ite (gs : GameState) (cid : Int) :
    calculatePointsDistribution gs cid =
      if (betScanOf gs cid).2 ≠ [] ∧ (betScanOf gs cid).1 > 0 then
        gs.currentBets.foldl zeroFillStep
          ((betScanOf gs cid).2.map
            (fun n => (n, Int.fdiv (betScanOf gs cid).1
                ((betScanOf gs cid).2.length : Int))))
      else gs.currentBets.foldl (refundStep gs.room.players) [] := rfl

/-- The results of the scoring engine carry unique keys whenever the
current bets do. -/
theorem cpd_keys_nodup (gs : GameState) (cid : Int)
    (hnd : (akeys gs.currentBets).Nodup) :
    (akeys (calculatePointsDistribution gs cid)).Nodup := by
  rw [cpd_as_ite]
  split
  · apply zeroFill_keys_nodup
    obtain ⟨l, hl, hsub⟩ :=
      betScan_correct_sublist gs.room.players cid gs.currentBets (0, [])
    have hscan2 : (betScanOf gs cid).2 = l := by
      unfold betScanOf
      rw [hl]
      rfl
    rw [hscan2]
    have hk : akeys (l.map (fun n => (n, Int.fdiv (betScanOf gs cid).1
        (l.length : Int)))) = l := by
      unfold akeys
      rw [List.map_map]
      have hco : (Prod.fst ∘ fun n : String =>
          (n, Int.fdiv (betScanOf gs cid).1 (l.length : Int))) = id := rfl
      rw [hco, List.map_id]
    rw [hk]
    exact hsub.nodup hnd
  · rw [refundFold_eq, List.nil_append]
    exact (refund_keys_sublist gs.room.players gs.currentBets).nodup hnd

/-- Every entry of a zero-fill fold is an initial entry or carries 0. -/
theorem zeroFill_mem (bets : List (String × PlayerBet))
    (res₀ : List (String × Int)) {nd : String × Int}
    (h : nd ∈ bets.foldl zeroFillStep res₀) : nd ∈ res₀ ∨ nd.2 = 0 := by
  induction bets generalizing res₀ with
  | nil => exact Or.inl h
  | cons b t ih =>
      simp only [List.foldl_cons] at h
      rcases ih _ h with h1 | h1
      · unfold zeroFillStep at h1
        split at h1
        · exact Or.inl h1
        · rcases List.mem_append.mp h1 with h2 | h2
          · exact Or.inl h2
          · right
            rw [List.mem_singleton.mp h2]
      · exact Or.inr h1

/-- Every delta the scoring engine produces is non-negative, provided every
player wager is non-negative. -/
theorem cpd_values_nonneg (gs : GameState) (cid : Int)
    (hw : ∀ np ∈ gs.room.players, 0 ≤ np.2.wageredAmount) :
    ∀ nd ∈ calculatePointsDistribution gs cid, 0 ≤ nd.2 := by
  intro nd hnd
  rw [cpd_as_ite] at hnd
  split at hnd
  case isTrue hcond =>
    rcases zeroFill_mem _ _ hnd with h1 | h1
    · obtain ⟨n, hn, he⟩ := List.mem_map.mp h1
      rw [← he]
      exact Int.fdiv_nonneg (le_of_lt hcond.2) (Int.ofNat_nonneg _)
    · rw [h1]
  case isFalse hcond =>
    rw [refundFold_eq, List.nil_append] at hnd
    obtain ⟨b, hb, he⟩ := List.mem_filterMap.mp hnd
    rcases hp : alookup gs.room.players b.1 with _ | p
    · rw [hp] at he
      cases he
    · rw [hp] at he
      simp only [Option.map_some', Option.some_inj] at he
      rw [← he]
      exact hw (b.1, p) (mem_of_alookup_some hp)

/-! ### Claim theorems C1 and C2 -/

/-- C1: for every current bet set (with unique bettor keys, every bettor
present in `room.players`) whose total wagered amount is positive and in
which at least one bettor chose the correct answer id, the scoring engine
gives each correct bettor `floor(total_wagered / count(correct))` where
`total_wagered` sums the wagers of all bettors, gives every other bettor 0,
assigns nothing to non-bettors, and pays out exactly
`count(correct) * floor(total_wagered / count(correct))` in total — the
integer-division remainder goes to nobody. -/
theorem scoring_winners_floor_share (gs : GameState) (cid : Int)
    (hnodup : (akeys gs.currentBets).Nodup)
    (hpresent : ∀ b ∈ gs.currentBets, (alookup gs.room.players b.1).isSome)
    (hpos : 0 < totalWageredOf gs)
    (hcorr : ∃ b ∈ gs.currentBets, b.2.answerId = cid) :
    (∀ b ∈ gs.currentBets,
       alookup (calculatePointsDistribution gs cid) b.1 =
         some (if b.2.answerId = cid
               then Int.fdiv (totalWageredOf gs) ((correctBettors gs cid).length : Int)
               else 0))
    ∧ (∀ k, k ∉ akeys gs.currentBets →
         alookup (calculatePointsDistribution gs cid) k = none)
    ∧ ((calculatePointsDistribution gs cid).map Prod.snd).sum =
        ((correctBettors gs cid).length : Int) *
          Int.fdiv (totalWageredOf gs) ((correctBettors gs cid).length : Int) := by
  have heq := calculatePointsDistribution_eq gs cid hpresent
  obtain ⟨b₀, hb₀, hb₀c⟩ := hcorr
  have hb₀mem : b₀.1 ∈ correctBettors gs cid := by
    unfold correctBettors
    exact List.mem_map_of_mem Prod.fst
      (List.mem_filter.mpr ⟨hb₀, by simpa using hb₀c⟩)
  have hCne : correctBettors gs cid ≠ [] := List.ne_nil_of_mem hb₀mem
  rw [if_pos ⟨hCne, hpos⟩] at heq
  refine ⟨?_, ?_, ?_⟩
  · intro b hb
    rw [heq]
    by_cases hc : b.2.answerId = cid
    · have hmem : b.1 ∈ correctBettors gs cid := by
        unfold correctBettors
        exact List.mem_map_of_mem Prod.fst
          (List.mem_filter.mpr ⟨hb, by simpa using hc⟩)
      rw [if_pos hc]
      apply zeroFill_lookup_some
      rw [winners_lookup]
      simp [hmem]
    · have hnotmem : b.1 ∉ correctBettors gs cid := by
        intro hmem
        unfold correctBettors at hmem
        obtain ⟨b', hb'f, hb'k⟩ := List.mem_map.mp hmem
        have hb'mem : b' ∈ gs.currentBets := (List.mem_filter.mp hb'f).1
        have hb'c : b'.2.answerId = cid := by
          simpa using (List.mem_filter.mp hb'f).2
        have hbe : b = b' := entries_eq_of_nodup_keys hnodup hb hb'mem hb'k.symm
        rw [hbe] at hc
        exact hc hb'c
      rw [if_neg hc]
      apply zeroFill_lookup_none
      · rw [winners_lookup]
        simp [hnotmem]
      · exact List.mem_map_of_mem Prod.fst hb
  · intro k hk
    rw [heq, zeroFill_lookup_not_mem _ _ _ hk, winners_lookup]
    have hnc : k ∉ correctBettors gs cid := by
      intro hm
      apply hk
      unfold correctBettors at hm
      exact List.map_subset Prod.fst (List.filter_sublist _).subset hm
    simp [hnc]
  · rw [heq, zeroFill_sum, List.map_map]
    exact sum_map_const_int (correctBettors gs cid) _

/-- C2: for every current bet set (unique bettor keys, every bettor present
in `room.players`) in which no bettor chose the correct answer id — or in
which nobody wagered anything — the scoring engine assigns every bettor a
delta equal to exactly their own wagered amount, and the deltas sum to the
total wagered: a net-zero change across the prompt. -/
theorem scoring_refund_law (gs : GameState) (cid : Int)
    (hnodup : (akeys gs.currentBets).Nodup)
    (hpresent : ∀ b ∈ gs.currentBets, (alookup gs.room.players b.1).isSome)
    (hmiss : (∀ b ∈ gs.currentBets, b.2.answerId ≠ cid) ∨
             (∀ b ∈ gs.currentBets, betWager gs.room.players b = 0)) :
    (∀ b ∈ gs.currentBets,
       alookup (calculatePointsDistribution gs cid) b.1 =
         some (betWager gs.room.players b))
    ∧ ((calculatePointsDistribution gs cid).map Prod.snd).sum =
        totalWageredOf gs := by
  have heq := calculatePointsDistribution_eq gs cid hpresent
  have hcond : ¬(correctBettors gs cid ≠ [] ∧ 0 < totalWageredOf gs) := by
    rcases hmiss with h | h
    · rintro ⟨hne, -⟩
      apply hne
      unfold correctBettors
      have hfil : gs.currentBets.filter (fun b => b.2.answerId = cid) = [] := by
        rw [List.filter_eq_nil_iff]
        intro b hb
        simpa using h b hb
      rw [hfil]
      rfl
    · rintro ⟨-, hpos⟩
      have hz : totalWageredOf gs = 0 := by
        unfold totalWageredOf
        apply List.sum_eq_zero
        intro x hx
        obtain ⟨b, hb, hbx⟩ := List.mem_map.mp hx
        rw [← hbx]
        exact h b hb
      omega
  rw [if_neg hcond] at heq
  rw [refundFold_eq, List.nil_append,
      refund_filterMap_eq gs.room.players gs.currentBets hpresent] at heq
  constructor
  · intro b hb
    rw [heq]
    exact alookup_map_pair gs.currentBets _ hnodup hb
  · rw [heq, List.map_map]
    rfl

/-! ### The bet handler: case analysis and claims C3, C6 -/

/-- The state effect of the `PLACE_BET` branch: either the room state is
unchanged (silent ignore, rejection with an error message, or the uncaught
KeyError), or the bet was accepted — the bettor existed with sufficient
score, and the bet entry and player record were updated. -/
theorem handlePlaceBet_gs_cases (now : Int) (gs : GameState) (n : String)
    (aid : Option Int) :
    (handlePlaceBet now gs n aid).gs = gs ∨
    (∃ a p, aid = some a ∧ alookup gs.room.players n = some p ∧
      calculateWagerAmount (demoEventsLength : Int) ≤ p.score ∧
      (handlePlaceBet now gs n aid).gs =
        { gs with
          currentBets := ainsert gs.currentBets n { playerName := n, answerId := a },
          room :=
            { gs.room with
              players :=
                ainsert gs.room.players n
                  { p with
                    currentBet := some a,
                    wageredAmount := calculateWagerAmount (demoEventsLength : Int),
                    score := p.score - calculateWagerAmount (demoEventsLength : Int) } } }) := by
  rcases aid with _ | a
  · left
    rcases hev : gs.room.currentEvent with _ | ev <;> simp [handlePlaceBet, hev]
  rcases hev : gs.room.currentEvent with _ | ev
  · left
    simp [handlePlaceBet, hev]
  by_cases ha : a ≠ 0
  case neg =>
    left
    simp [handlePlaceBet, hev, ha]
  case pos => ?_
  by_cases hst : ev.status = EventStatus.active
  case neg =>
    left
    simp [handlePlaceBet, hev, ha, hst]
  case pos => ?_
  by_cases hw : withinWindow ev.expiresAt now = true
  case neg =>
    left
    simp [handlePlaceBet, hev, ha, hst, hw]
  case pos => ?_
  rcases hp : alookup gs.room.players n with _ | p
  · left
    simp [handlePlaceBet, hev, ha, hst, hw, hp]
  by_cases hs : calculateWagerAmount (demoEventsLength : Int) ≤ p.score
  · right
    refine ⟨a, p, rfl, rfl, hs, ?_⟩
    simp [handlePlaceBet, hev, ha, hst, hw, hp, hs]
  · left
    simp [handlePlaceBet, hev, ha, hst, hw, hp, hs]

/-! ### Handler preservation lemmas -/

/-- Fields the bet handler never touches, and key-structure preservation. -/
theorem handlePlaceBet_preserves (now : Int) (gs : GameState) (n : String)
    (aid : Option Int) :
    (handlePlaceBet now gs n aid).gs.room.currentEvent = gs.room.currentEvent
    ∧ (handlePlaceBet now gs n aid).gs.room.completedEvents = gs.room.completedEvents
    ∧ (handlePlaceBet now gs n aid).gs.room.gameStatus = gs.room.gameStatus
    ∧ (handlePlaceBet now gs n aid).gs.room.hostName = gs.room.hostName
    ∧ akeys (handlePlaceBet now gs n aid).gs.room.players = akeys gs.room.players
    ∧ ((akeys gs.currentBets).Nodup →
        (akeys (handlePlaceBet now gs n aid).gs.currentBets).Nodup) := by
  rcases handlePlaceBet_gs_cases now gs n aid with hcase | ⟨a, p, ha, hp, hs, hcase⟩ <;>
    rw [hcase]
  · exact ⟨rfl, rfl, rfl, rfl, rfl, fun h => h⟩
  · refine ⟨rfl, rfl, rfl, rfl, ?_, ?_⟩
    · exact akeys_ainsert_of_lookup_some hp _
    · intro h
      exact akeys_ainsert_nodup _ _ h

/-- `schedule_next_event` never touches the player map. -/
theorem scheduleNextEvent_players (t : Int) (s : SysState) :
    (scheduleNextEvent t s).gs.room.players = s.gs.room.players := by
  unfold scheduleNextEvent
  rcases h : (getEventsForGameTemplates "lions_ravens_demo")[s.gs.room.completedEvents.length]? with _ | e
  · simp [h]
  · simp [h]

/-- The players of the state after `resolve_event` on the current prompt:
results applied, then every `current_bet` reset. -/
theorem resolveEventStep_players (now : Int) (s : SysState) (ev : Event)
    (hev : s.gs.room.currentEvent = some ev) :
    (resolveEventStep now s ev.id).gs.room.players =
      (applyResults s.gs.room.players
        (calculatePointsDistribution s.gs ev.correctAnswerId)).map
        (fun np => (np.1, { np.2 with currentBet := none })) := by
  simp only [resolveEventStep, hev]
  rw [if_neg (show ¬(ev.id ≠ ev.id) from fun h => h rfl)]
  split
  · rfl
  · rw [scheduleNextEvent_players]

/-! ### Reachability and frame lemmas for the room state machine -/

/-- Any property preserved by every action holds along every trace. -/
theorem runTrace_invariant {P : SysState → Prop}
    (hstep : ∀ s a, P s → P (stepAction s a))
    (acts : List Action) (s : SysState) (h : P s) : P (runTrace s acts) := by
  induction acts generalizing s with
  | nil => exact h
  | cons a t ih => exact ih (stepAction s a) (hstep s a h)

/-- `schedule_next_event` only touches the current prompt and the timer. -/
theorem scheduleNextEvent_frame (t : Int) (s : SysState) :
    (scheduleNextEvent t s).gs.room.hostName = s.gs.room.hostName
    ∧ (scheduleNextEvent t s).gs.room.players = s.gs.room.players
    ∧ (scheduleNextEvent t s).gs.room.completedEvents = s.gs.room.completedEvents
    ∧ (scheduleNextEvent t s).gs.room.gameStatus = s.gs.room.gameStatus
    ∧ (scheduleNextEvent t s).gs.currentBets = s.gs.currentBets := by
  unfold scheduleNextEvent
  rcases h : (getEventsForGameTemplates "lions_ravens_demo")[s.gs.room.completedEvents.length]? with _ | e <;>
    simp [h]

/-- `joinRoom` only touches the player map. -/
theorem joinRoom_frame (gs : GameState) (n : String) :
    (joinRoom gs n).room.currentEvent = gs.room.currentEvent
    ∧ (joinRoom gs n).room.completedEvents = gs.room.completedEvents
    ∧ (joinRoom gs n).room.gameStatus = gs.room.gameStatus
    ∧ (joinRoom gs n).room.hostName = gs.room.hostName
    ∧ (joinRoom gs n).currentBets = gs.currentBets := by
  unfold joinRoom
  by_cases hc : ¬pyStrip n = gs.room.hostName ∧
      alookup gs.room.players (pyStrip n) = none
  · simp [hc]
  · simp [hc]

/-- `handle_disconnect` only touches the player map. -/
theorem handleDisconnect_frame (s : SysState) (n : String) :
    (handleDisconnect s n).gs.room.currentEvent = s.gs.room.currentEvent
    ∧ (handleDisconnect s n).gs.room.completedEvents = s.gs.room.completedEvents
    ∧ (handleDisconnect s n).gs.room.gameStatus = s.gs.room.gameStatus
    ∧ (handleDisconnect s n).gs.room.hostName = s.gs.room.hostName
    ∧ (handleDisconnect s n).timerAlive = s.timerAlive := by
  unfold handleDisconnect
  split <;> exact ⟨rfl, rfl, rfl, rfl, rfl⟩

/-- The start handler never touches the player map. -/
theorem handleStartGame_players (now : Int) (s : SysState) (n : String) :
    (handleStartGame now s n).1.gs.room.players = s.gs.room.players := by
  simp only [handleStartGame]
  split
  · split
    · split
      · rfl
      · rw [scheduleNextEvent_players]
    · rfl
  · rfl

/-- The start handler never touches the completed prompts. -/
theorem handleStartGame_completed (now : Int) (s : SysState) (n : String) :
    (handleStartGame now s n).1.gs.room.completedEvents =
      s.gs.room.completedEvents := by
  simp only [handleStartGame]
  split
  · split
    · split
      · rfl
      · rw [(scheduleNextEvent_frame now _).2.2.1]
    · rfl
  · rfl

/-- The start handler never touches the host name. -/
theorem handleStartGame_host (now : Int) (s : SysState) (n : String) :
    (handleStartGame now s n).1.gs.room.hostName = s.gs.room.hostName := by
  simp only [handleStartGame]
  split
  · split
    · split
      · rfl
      · rw [(scheduleNextEvent_frame now _).1]
    · rfl
  · rfl

/-- The host name is constant along resolution. -/
theorem resolveEventStep_host (now : Int) (s : SysState) (eid : String) :
    (resolveEventStep now s eid).gs.room.hostName = s.gs.room.hostName := by
  rcases hev : s.gs.room.currentEvent with _ | ev
  · simp [resolveEventStep, hev]
  · simp only [resolveEventStep, hev]
    split
    · rfl
    · split
      · rfl
      · rw [(scheduleNextEvent_frame now _).1]

/-- Applying results never adds a player record. -/
theorem applyResults_lookup_none (results : List (String × Int))
    (players : List (String × Player)) (k : String)
    (h : alookup players k = none) :
    alookup (applyResults players results) k = none := by
  induction results generalizing players with
  | nil => exact h
  | cons nd t ih =>
      simp only [applyResults, List.foldl_cons]
      rcases hp : alookup players nd.1 with _ | p
      · rw [show applyResultStep players nd = players from by
          simp [applyResultStep, hp]]
        have hih := ih players h
        simp only [applyResults] at hih
        exact hih
      · have hne : ¬nd.1 = k := by
          intro e
          rw [e, h] at hp
          cases hp
        rw [show applyResultStep players nd =
            ainsert players nd.1
              { p with score := p.score + nd.2, wageredAmount := 0 } from by
          simp [applyResultStep, hp]]
        have h' : alookup (ainsert players nd.1
            { p with score := p.score + nd.2, wageredAmount := 0 }) k = none := by
          rw [alookup_ainsert, if_neg hne]
          exact h
        have hih := ih _ h'
        simp only [applyResults] at hih
        exact hih

/-- Resolution never adds a player record. -/
theorem resolveEventStep_lookup_none (now : Int) (s : SysState) (eid : String)
    (k : String) (h : alookup s.gs.room.players k = none) :
    alookup (resolveEventStep now s eid).gs.room.players k = none := by
  rcases hev : s.gs.room.currentEvent with _ | ev
  · simp [resolveEventStep, hev]
    exact h
  · simp only [resolveEventStep, hev]
    split
    · exact h
    · have hcore : alookup
          ((applyResults s.gs.room.players
            (calculatePointsDistribution s.gs ev.correctAnswerId)).map
            (fun np => (np.1, { np.2 with currentBet := none }))) k = none := by
        rw [alookup_map_val, applyResults_lookup_none _ _ _ h]
        rfl
      split
      · exact hcore
      · rw [scheduleNextEvent_players]
        exact hcore

/-! ### Claim C7: the host is never a player -/

/-- The join handler either leaves the player map unchanged, or adds a
fresh record under the stripped name, which the guard keeps distinct from
the host name. -/
theorem joinRoom_players_cases (gs : GameState) (n : String) :
    (joinRoom gs n).room.players = gs.room.players ∨
    ((joinRoom gs n).room.players =
        ainsert gs.room.players (pyStrip n) { name := pyStrip n }
      ∧ ¬pyStrip n = gs.room.hostName
      ∧ alookup gs.room.players (pyStrip n) = none) := by
  simp only [joinRoom]
  split
  case isTrue hcond =>
    right
    exact ⟨rfl, hcond.1, Option.isNone_iff_eq_none.mp hcond.2⟩
  case isFalse => left; rfl

/-- Every transition preserves absence of the host name from the player
map. -/
theorem step_preserves_host_absent (s : SysState) (a : Action)
    (h : alookup s.gs.room.players s.gs.room.hostName = none) :
    alookup (stepAction s a).gs.room.players
      (stepAction s a).gs.room.hostName = none := by
  rcases a with n | ⟨now, n, aid⟩ | ⟨now, n⟩ | ⟨now, eid⟩ | n
  · -- join: the added key differs from the host name by the is_host guard
    show alookup (joinRoom s.gs n).room.players
      (joinRoom s.gs n).room.hostName = none
    rw [(joinRoom_frame s.gs n).2.2.2.1]
    rcases joinRoom_players_cases s.gs n with h1 | ⟨h1, hne, -⟩
    · rw [h1]
      exact h
    · rw [h1, alookup_ainsert, if_neg hne]
      exact h
  · -- placeBet: an accepted bet updates an existing non-host key
    show alookup (handlePlaceBet now s.gs n aid).gs.room.players
      (handlePlaceBet now s.gs n aid).gs.room.hostName = none
    rw [(handlePlaceBet_preserves now s.gs n aid).2.2.2.1]
    rcases handlePlaceBet_gs_cases now s.gs n aid with hc | ⟨a', p, -, hp, -, hacc⟩
    · rw [hc]
      exact h
    · rw [hacc]
      have hne : ¬n = s.gs.room.hostName := by
        intro e
        rw [e, h] at hp
        cases hp
      show alookup (ainsert s.gs.room.players n _) s.gs.room.hostName = none
      rw [alookup_ainsert, if_neg hne]
      exact h
  · -- startGame: players untouched
    show alookup (handleStartGame now s n).1.gs.room.players
      (handleStartGame now s n).1.gs.room.hostName = none
    rw [handleStartGame_players, handleStartGame_host]
    exact h
  · -- resolve: applying results adds no player record
    show alookup (resolveEventStep now s eid).gs.room.players
      (resolveEventStep now s eid).gs.room.hostName = none
    rw [resolveEventStep_host]
    exact resolveEventStep_lookup_none now s eid _ h
  · -- disconnect: erasure adds nothing
    show alookup (handleDisconnect s n).gs.room.players
      (handleDisconnect s n).gs.room.hostName = none
    rw [(handleDisconnect_frame s n).2.2.2.1]
    unfold handleDisconnect
    split
    case isTrue hc =>
      show alookup (aerase s.gs.room.players n) s.gs.room.hostName = none
      rw [alookup_aerase_ne _ _ _ hc.1]
      exact h
    case isFalse => exact h

/-- C7: in every reachable room state, the host name is not a key of the
player map; a host disconnect changes nothing at all; and a host bet never
mutates the room state (it can only be ignored, rejected, or die on the
player lookup) — so the host is never charged a wager. -/
theorem host_never_player (roomId vname gameName hostName : String)
    (s : SysState) (h : Reachable roomId vname gameName hostName s) :
    alookup s.gs.room.players s.gs.room.hostName = none
    ∧ handleDisconnect s s.gs.room.hostName = s
    ∧ (∀ now aid, (handlePlaceBet now s.gs s.gs.room.hostName aid).gs = s.gs) := by
  obtain ⟨acts, rfl⟩ := h
  have hP : alookup (runTrace (initRoom roomId vname gameName hostName) acts).gs.room.players
      (runTrace (initRoom roomId vname gameName hostName) acts).gs.room.hostName = none :=
    runTrace_invariant step_preserves_host_absent acts _ rfl
  refine ⟨hP, ?_, ?_⟩
  · unfold handleDisconnect
    rw [if_neg]
    rintro ⟨hc, -⟩
    exact hc rfl
  · intro now aid
    rcases handlePlaceBet_gs_cases now
        (runTrace (initRoom roomId vname gameName hostName) acts).gs
        (runTrace (initRoom roomId vname gameName hostName) acts).gs.room.hostName
        aid with hc | ⟨a', p, -, hp, -, -⟩
    · exact hc
    · rw [hP] at hp
      cases hp

/-! ### Claim C10: scores never go negative -/

/-- Applying non-negative deltas keeps scores and wagers non-negative. -/
theorem applyResults_nonneg (results : List (String × Int))
    (players : List (String × Player))
    (hres : ∀ nd ∈ results, 0 ≤ nd.2)
    (hinv : ∀ np ∈ players, 0 ≤ np.2.score ∧ 0 ≤ np.2.wageredAmount) :
    ∀ np ∈ applyResults players results,
      0 ≤ np.2.score ∧ 0 ≤ np.2.wageredAmount := by
  induction results generalizing players with
  | nil => exact hinv
  | cons nd t ih =>
      simp only [applyResults, List.foldl_cons]
      have hres' : ∀ x ∈ t, 0 ≤ x.2 :=
        fun x hx => hres x (List.mem_cons_of_mem _ hx)
      rcases hp : alookup players nd.1 with _ | p
      · rw [show applyResultStep players nd = players from by
          simp [applyResultStep, hp]]
        have hih := ih players hres' hinv
        simp only [applyResults] at hih
        exact hih
      · rw [show applyResultStep players nd =
            ainsert players nd.1
              { p with score := p.score + nd.2, wageredAmount := 0 } from by
          simp [applyResultStep, hp]]
        have hinv' : ∀ np ∈ ainsert players nd.1
            { p with score := p.score + nd.2, wageredAmount := 0 },
            0 ≤ np.2.score ∧ 0 ≤ np.2.wageredAmount := by
          intro np hnp
          rcases mem_ainsert hnp with h1 | h1
          · rw [h1]
            refine ⟨?_, le_refl 0⟩
            have h2 := (hinv (nd.1, p) (mem_of_alookup_some hp)).1
            have h3 := hres nd (List.mem_cons_self nd t)
            exact add_nonneg h2 h3
          · exact hinv np h1
        have hih := ih _ hres' hinv'
        simp only [applyResults] at hih
        exact hih

/-- Every transition preserves non-negativity of all scores and wagers. -/
theorem step_preserves_nonneg (s : SysState) (a : Action)
    (h : ∀ np ∈ s.gs.room.players, 0 ≤ np.2.score ∧ 0 ≤ np.2.wageredAmount) :
    ∀ np ∈ (stepAction s a).gs.room.players,
      0 ≤ np.2.score ∧ 0 ≤ np.2.wageredAmount := by
  rcases a with n | ⟨now, n, aid⟩ | ⟨now, n⟩ | ⟨now, eid⟩ | n
  · intro np hnp
    have hnp' : np ∈ (joinRoom s.gs n).room.players := hnp
    rcases joinRoom_players_cases s.gs n with h1 | ⟨h1, -, -⟩
    · rw [h1] at hnp'
      exact h np hnp'
    · rw [h1] at hnp'
      rcases mem_ainsert hnp' with h2 | h2
      · rw [h2]
        exact ⟨by norm_num, le_refl 0⟩
      · exact h np h2
  · intro np hnp
    have hnp' : np ∈ (handlePlaceBet now s.gs n aid).gs.room.players := hnp
    rcases handlePlaceBet_gs_cases now s.gs n aid with
      hc | ⟨a', p, -, hp, hs, hacc⟩
    · rw [hc] at hnp'
      exact h np hnp'
    · rw [hacc] at hnp'
      rcases mem_ainsert hnp' with h2 | h2
      · rw [h2]
        constructor
        · exact sub_nonneg.mpr hs
        · show (0 : Int) ≤ calculateWagerAmount (demoEventsLength : Int)
          decide
      · exact h np h2
  · intro np hnp
    have hnp' : np ∈ (handleStartGame now s n).1.gs.room.players := hnp
    rw [handleStartGame_players] at hnp'
    exact h np hnp'
  · intro np hnp
    have hnp' : np ∈ (resolveEventStep now s eid).gs.room.players := hnp
    rcases hev : s.gs.room.currentEvent with _ | ev
    · rw [show (resolveEventStep now s eid).gs.room.players =
          s.gs.room.players from by simp [resolveEventStep, hev]] at hnp'
      exact h np hnp'
    · by_cases hid : ev.id ≠ eid
      · rw [show (resolveEventStep now s eid).gs.room.players =
            s.gs.room.players from by
          simp only [resolveEventStep, hev]
          rw [if_pos hid]] at hnp'
        exact h np hnp'
      · have hid' : ev.id = eid := not_ne_iff.mp hid
        subst hid'
        rw [resolveEventStep_players now s ev hev] at hnp'
        obtain ⟨x, hx, hxe⟩ := List.mem_map.mp hnp'
        have hresnn := cpd_values_nonneg s.gs ev.correctAnswerId
          (fun q hq => (h q hq).2)
        have hxinv := applyResults_nonneg _ _ hresnn h x hx
        rw [← hxe]
        exact ⟨hxinv.1, hxinv.2⟩
  · intro np hnp
    have hnp' : np ∈ (handleDisconnect s n).gs.room.players := hnp
    unfold handleDisconnect at hnp'
    split at hnp'
    · exact h np (mem_aerase hnp')
    · exact h np hnp'

/-- C10: in every reachable room state, every player score is
non-negative — joins start at 200, a bet is accepted only against
sufficient score and deducts exactly the wager, and every resolution delta
is non-negative. -/
theorem scores_nonneg (roomId vname gameName hostName : String)
    (s : SysState) (h : Reachable roomId vname gameName hostName s) :
    ∀ np ∈ s.gs.room.players, 0 ≤ np.2.score := by
  obtain ⟨acts, rfl⟩ := h
  have hP := @runTrace_invariant
    (fun s => ∀ np ∈ s.gs.room.players, 0 ≤ np.2.score ∧ 0 ≤ np.2.wageredAmount)
    step_preserves_nonneg acts (initRoom roomId vname gameName hostName)
    (by intro np hnp; cases hnp)
  exact fun np hnp => (hP np hnp).1

/-! ### Claim C8: the betting-closed broadcast -/

/-- C8: on a timer wake where the room exists and the current prompt
matches the prompt the timer was started for, `close_betting` does not
broadcast a betting-closed message: building the message evaluates
`MessageType.BETTING_CLOSED`, which is not a member of the `MessageType`
enum of models.py, so the callback raises `AttributeError` inside the
timer task instead. -/
theorem betting_closed_attribute_error :
    sActive.gs.room.currentEvent = some activeEvent1
    ∧ activeEvent1.id = "event_1"
    ∧ messageTypeAttr "BETTING_CLOSED" = none
    ∧ messageTypeAttr "PLACE_BET" = none
    ∧ messageTypeAttr "BET_PLACED" = none
    ∧ messageTypeAttr "EVENT_RESOLVED" = some "event_resolved"
    ∧ closeBetting sActive "event_1" =
        CloseBettingOutcome.raised "AttributeError: BETTING_CLOSED" := by
  decide

/-! ### Claim C9: provider data is not immutable -/

/-- C9: `get_events_for_game` returns a shallow copy — the same references
each time — and activating the first prompt of one room at time 100
mutates the shared objects: the prompts subsequently returned for any room
on the same game id now carry Active status and stamped timestamps instead
of the pristine Pending templates. -/
theorem provider_templates_mutated :
    getEventsForGameRefs providerAfterActivation "lions_ravens_demo" =
      getEventsForGameRefs initProvider "lions_ravens_demo"
    ∧ (derefEvents initProvider
        (getEventsForGameRefs initProvider "lions_ravens_demo")).map
          (fun oe => oe.map Event.status) =
        [some .pending, some .pending, some .pending,
         some .pending, some .pending, some .pending]
    ∧ (derefEvents providerAfterActivation
        (getEventsForGameRefs providerAfterActivation "lions_ravens_demo")).map
          (fun oe => oe.map Event.status) =
        [some .active, some .pending, some .pending,
         some .pending, some .pending, some .pending]
    ∧ (providerAfterActivation.demoEventObjects.get? 0).map Event.expiresAt =
        some (some 130)
    ∧ (providerAfterActivation.demoEventObjects.get? 0).map Event.createdAt =
        some (some 100) := by
  decide

/-! ### Claims C3-C6: every message and every timer wake dies on the enum

The dispatch of the websocket loop (line 367) and the betting-closed
broadcast (line 119) both evaluate missing `MessageType` members, so the
behaviors these claims describe never happen: no error reply is ever
sent, no wager is ever recorded, and no prompt is ever resolved. -/

/-- C3: a bet submitted past the expiry of the Active current prompt is
not rejected with an `error` message — the loop evaluates the missing
`MessageType.PLACE_BET` member before any expiry comparison, raises
`AttributeError`, replies with nothing, deletes the player record of the
sender, and ends the session. -/
theorem late_bet_no_error_reply :
    sActive.gs.room.currentEvent = some activeEvent1
    ∧ activeEvent1.status = EventStatus.active
    ∧ activeEvent1.expiresAt = some 30
    ∧ messageTypeAttr "PLACE_BET" = none
    ∧ alookup sActive.gs.room.players "alice" = some { name := "alice" }
    ∧ (handleClientMessage 31 sActive "alice" "place_bet" (some 1)).errorSent
        = none
    ∧ (handleClientMessage 31 sActive "alice" "place_bet" (some 1)).sessionAlive
        = false
    ∧ alookup (handleClientMessage 31 sActive "alice" "place_bet"
        (some 1)).s.gs.room.players "alice" = none := by
  decide

/-- C4: the fund flow the conservation claim describes cannot occur: a
funded in-window bet message records no wager and deducts no score — the
dispatch raises on the missing `PLACE_BET` member and the handler deletes
the bettor — although the branch body the loop was written to reach would
have accepted it; and even that body raises on the missing `BET_PLACED`
member (line 395) right after its mutations. -/
theorem bet_funds_flow_crash :
    messageTypeAttr "PLACE_BET" = none
    ∧ messageTypeAttr "BET_PLACED" = none
    ∧ (handlePlaceBet 5 sActive.gs "alice" (some 1)).confirmed = true
    ∧ (handleClientMessage 5 sActive "alice" "place_bet" (some 1)).s.gs.currentBets
        = []
    ∧ (handleClientMessage 5 sActive "alice" "place_bet" (some 1)).errorSent
        = none
    ∧ (handleClientMessage 5 sActive "alice" "place_bet" (some 1)).sessionAlive
        = false
    ∧ alookup (handleClientMessage 5 sActive "alice" "place_bet"
        (some 1)).s.gs.room.players "alice" = none := by
  decide

/-- C5: no room ever transitions to Completed.  For every state and timer
id, `close_betting` is a stale no-op or raises on the missing
`BETTING_CLOSED` member — it never broadcasts — and on a matching wake
the raise kills the timer task before `resolve_event` can run, so the
started demo room keeps InProgress status, zero completed prompts, and
its current prompt forever. -/
theorem game_never_completes :
    (∀ (s : SysState) (eid : String),
      closeBetting s eid = CloseBettingOutcome.noop ∨
      closeBetting s eid =
        CloseBettingOutcome.raised "AttributeError: BETTING_CLOSED")
    ∧ startEventTimerRun 40 sActive "event_1" = (sActive, true)
    ∧ sActive.gs.room.currentEvent = some activeEvent1
    ∧ sActive.gs.room.gameStatus = GameStatus.inProgress
    ∧ sActive.gs.room.completedEvents.length = 0 := by
  constructor
  · intro s eid
    rcases hev : s.gs.room.currentEvent with _ | ev
    · left
      simp [closeBetting, hev]
    · by_cases h : ev.id ≠ eid
      · left
        simp [closeBetting, hev, h]
      · right
        simp only [closeBetting, hev]
        rw [if_neg h]
        rfl
  · exact ⟨by decide, by decide, by decide, by decide⟩

/-- C6: no invalid action is reported with an `error` message: every
inbound message raises on the missing `PLACE_BET` member before any
validation branch, nothing is sent, the session ends rather than
continuing, and for a non-host sender the exception handler deletes
their player record — state is mutated.  Shown at a bet with no current
prompt, a start of an already started room by the host, and a start by a
non-host. -/
theorem invalid_action_crash :
    sNoEvent.gs.room.currentEvent = none
    ∧ messageTypeAttr "PLACE_BET" = none
    ∧ alookup sNoEvent.gs.room.players "alice" = some { name := "alice" }
    ∧ (handleClientMessage 0 sNoEvent "alice" "place_bet" (some 1)).errorSent
        = none
    ∧ (handleClientMessage 0 sNoEvent "alice" "place_bet" (some 1)).sessionAlive
        = false
    ∧ alookup (handleClientMessage 0 sNoEvent "alice" "place_bet"
        (some 1)).s.gs.room.players "alice" = none
    ∧ sActive.gs.room.gameStatus = GameStatus.inProgress
    ∧ (handleClientMessage 7 sActive "hostess" "start_game" none).errorSent
        = none
    ∧ (handleClientMessage 7 sActive "hostess" "start_game" none).sessionAlive
        = false
    ∧ (handleClientMessage 7 sActive "alice" "start_game" none).errorSent
        = none := by
  decide

/-! ### Witnesses -/

/-- Witness for the winners law: in the two-bet room (Alice correct, Bob
incorrect, both wagering 33), the delta of Alice is
`floor(66 / 1) = 66`. -/
theorem scoring_winners_floor_share_witness :
    alookup (calculatePointsDistribution gsTwoBets 1) "alice" =
      some (Int.fdiv (totalWageredOf gsTwoBets)
        ((correctBettors gsTwoBets 1).length : Int)) := by
  have h := scoring_winners_floor_share gsTwoBets 1 (by decide) (by decide)
    (by decide) ⟨("alice", ⟨"alice", 1⟩), by decide, by decide⟩
  have h2 := h.1 ("alice", ⟨"alice", 1⟩) (by decide)
  simpa using h2

/-- Witness for the refund law: with correct answer 3 nobody is right, and
Alice gets her own wager back while the deltas sum to the pot. -/
theorem scoring_refund_law_witness :
    alookup (calculatePointsDistribution gsTwoBets 3) "alice" =
      some (betWager gsTwoBets.room.players ("alice", ⟨"alice", 1⟩))
    ∧ ((calculatePointsDistribution gsTwoBets 3).map Prod.snd).sum =
        totalWageredOf gsTwoBets := by
  have h := scoring_refund_law gsTwoBets 3 (by decide) (by decide)
    (Or.inl (by decide))
  exact ⟨h.1 ("alice", ⟨"alice", 1⟩) (by decide), h.2⟩

/-- Witness for the host-is-no-player law at a started demo room. -/
theorem host_never_player_witness :
    alookup sActive.gs.room.players sActive.gs.room.hostName = none
    ∧ handleDisconnect sActive sActive.gs.room.hostName = sActive
    ∧ (∀ now aid,
        (handlePlaceBet now sActive.gs sActive.gs.room.hostName aid).gs =
          sActive.gs) :=
  host_never_player "room4" "venue" "lions_ravens_demo" "hostess" sActive
    ⟨[.join "alice", .startGame 0 "hostess"], rfl⟩

/-- Witness for score non-negativity: Alice after betting 33 from 200
stands at 167. -/
theorem scores_nonneg_witness :
    (0 : Int) ≤ (("alice",
      ({ name := "alice", score := 167, currentBet := some 1,
         wageredAmount := 33 } : Player)) : String × Player).2.score :=
  scores_nonneg "room1" "venue" "lions_ravens_demo" "hostess"
    (runTrace (initRoom "room1" "venue" "lions_ravens_demo" "hostess")
      [.join "alice", .join "bob", .startGame 0 "hostess",
       .placeBet 5 "alice" (some 1), .placeBet 5 "bob" (some 2)])
    ⟨[.join "alice", .join "bob", .startGame 0 "hostess",
       .placeBet 5 "alice" (some 1), .placeBet 5 "bob" (some 2)], rfl⟩
    ("alice", { name := "alice", score := 167, currentBet := some 1,
                wageredAmount := 33 })
    (by decide)

end QuickPicks
